import Mathlib

/-!
Verification of the offer-normalization core of the grocery-deal
application (`app.py`).  The Python helpers `parse_price`,
`extract_quantity_and_unit_from_string` and `standardize_offer_price`
(app.py lines 17-176) and the batch step of `process_brochure`
(app.py lines 292-293) are embedded as executable Lean definitions.
Prices are modelled as exact rationals; Python dictionaries as ordered
association lists; a Python exception (an `AttributeError` from calling
`.lower()` on a non-string) as `Except.error`.
-/

namespace GroceryNorm

/-! ### Exact rational numbers with structural (kernel-reducible) arithmetic -/

/-- Fuel-driven Euclidean gcd; with fuel `a + 1` it computes `gcd a b`. -/
def gcdFuel : Nat → Nat → Nat → Nat
  | 0, _, b => b
  | f + 1, a, b => if a = 0 then b else gcdFuel f (b % a) a

/-- Structural gcd (kernel-reducible, unlike the well-founded library one). -/
def natGcd (a b : Nat) : Nat := gcdFuel (a + 1) a b

/-- An exact rational: numerator and (positive, by construction) denominator. -/
structure Q where
  num : Int
  den : Nat
  deriving DecidableEq

/-- Normalizing constructor: sign on the numerator, reduced by the gcd. -/
def mkQ (n d : Int) : Q :=
  if d = 0 then ⟨0, 1⟩
  else
    let n' : Int := if d < 0 then -n else n
    let dn : Nat := d.natAbs
    let g : Nat := natGcd n'.natAbs dn
    ⟨n' / (g : Int), dn / g⟩

def qAdd (a b : Q) : Q := mkQ (a.num * b.den + b.num * a.den) (a.den * b.den)

def qNeg (a : Q) : Q := ⟨-a.num, a.den⟩

def qSub (a b : Q) : Q := qAdd a (qNeg b)

def qMul (a b : Q) : Q := mkQ (a.num * b.num) (a.den * b.den)

def qDiv (a b : Q) : Q := mkQ (a.num * b.den) (a.den * b.num)

/-- `0 < q`, valid because constructed denominators are positive. -/
def qPos (a : Q) : Bool := 0 < a.num

/-- `a < b` by cross multiplication (denominators are nonnegative). -/
def qLtB (a b : Q) : Bool := a.num * (b.den : Int) < b.num * (a.den : Int)

/-- Floor of a rational as an integer (floor division of num by den). -/
def qFloor (a : Q) : Int := Int.fdiv a.num a.den

/-- Round to the nearest integer, ties to even — the rule of Python `round`. -/
def roundHalfEven (a : Q) : Int :=
  let f : Int := qFloor a
  let r : Q := qSub a ⟨f, 1⟩
  if qLtB r ⟨1, 2⟩ then f
  else if qLtB ⟨1, 2⟩ r then f + 1
  else if f % 2 = 0 then f else f + 1

/-- Round half even of `n / d` on naturals (`d > 0`). -/
def rheNat (n d : Nat) : Nat :=
  let q := n / d
  let r2 := 2 * (n % d)
  if r2 < d then q else if d < r2 then q + 1 else if q % 2 = 0 then q else q + 1

/-- Fuel-driven `⌊log2 n⌋` for `n ≥ 1` (0 for smaller inputs). -/
def natLog2F : Nat → Nat → Nat
  | 0, _ => 0
  | f + 1, n => if n ≤ 1 then 0 else natLog2F f (n / 2) + 1

/-- `⌊log2 (a / b)⌋` for `a, b ≥ 1`; fuel 2200 covers far beyond the
binary64 exponent range, and values past it fall into the saturation
branch of `nearestDouble` anyway. -/
def ratLog2 (a b : Nat) : Int :=
  if b ≤ a then (natLog2F 2200 (a / b) : Int)
  else
    let k := natLog2F 2200 (b / a)
    if b ≤ a * 2 ^ k then -(k : Int) else -(k : Int) - 1

/-- The IEEE-754 binary64 value nearest to `q` (round to nearest, ties to
even), as an exact rational: significands are rounded on the grid
`2^(e-52)`, clamped to `2^-1074` for subnormals.  A magnitude beyond the
double range (where Python holds `inf`) is kept exact — no judged input
reaches it, since the oversized integer divisions already raise first. -/
def nearestDouble (q : Q) : Q :=
  if q.num = 0 then ⟨0, 1⟩
  else
    let a := q.num.natAbs
    let b := q.den
    let e : Int := ratLog2 a b
    if (1023 : Int) < e then q
    else
      let g : Int := if e - 52 < -1074 then -1074 else e - 52
      let m : Nat :=
        if 0 ≤ g then rheNat a (b * 2 ^ g.toNat)
        else rheNat (a * 2 ^ (-g).toNat) b
      let v : Q :=
        if 0 ≤ g then ⟨((m * 2 ^ g.toNat : Nat) : Int), 1⟩
        else mkQ (m : Int) ((2 : Int) ^ (-g).toNat)
      if q.num < 0 then ⟨-v.num, v.den⟩ else v

/-- Python `round(x, 2)` where `x` holds the double nearest to the exact
value: the double's exact value is rounded to two decimals half-to-even
and the result is returned as the nearest double again (CPython's
correctly rounded `round(float, ndigits)`). -/
def pyRound2 (a : Q) : Q :=
  nearestDouble (mkQ (roundHalfEven (qMul (nearestDouble a) ⟨100, 1⟩)) 100)

/-- The least positive integer whose conversion to a Python float raises
`OverflowError`: ints below it round to the largest finite double, ints
at or above it would round to infinity.  Written as a literal (its value
is `2 ^ 1024 - 2 ^ 970`, see `floatMaxNat_eq`) so that evaluation never
meets the elaborator's exponent guard. -/
def floatMaxNat : Nat :=
  179769313486231580793728971405303415079934132710037826936173778980444968292764750946649017977587207096330286416692887910946555547851940402630657488671505820681908902000708383676273854845817711531764475730270069855571366959622842914819860834936475292719074168444365510704342711559699508093042880177904174497792

/-! ### Characters, case folding, digit runs -/

def isDigitC (c : Char) : Bool := 48 ≤ c.toNat && c.toNat ≤ 57

/-- ASCII whitespace, the subset of Python `\s` relevant to this data. -/
def isSpaceC (c : Char) : Bool :=
  c = ' ' || c = '\t' || c = '\n' || c = '\r' || c = '\x0b' || c = '\x0c'

/-- Python `str.lower` on the alphabet of this program (ASCII plus umlauts). -/
def pyLowerChar (c : Char) : Char :=
  if 65 ≤ c.toNat && c.toNat ≤ 90 then Char.ofNat (c.toNat + 32)
  else if c = 'Ä' then 'ä'
  else if c = 'Ö' then 'ö'
  else if c = 'Ü' then 'ü'
  else c

def pyLower (s : String) : String := String.mk (s.data.map pyLowerChar)

/-- Numeric value of a digit string, as Python `int` on it. -/
def natOfDigits (l : List Char) : Nat :=
  l.foldl (fun a c => a * 10 + (c.toNat - 48)) 0

/-- Decimal digits of `n`, most significant first (fuel-driven, exact). -/
def natReprAux : Nat → Nat → List Char
  | 0, _ => []
  | f + 1, n => if n = 0 then [] else natReprAux f (n / 10) ++ [Char.ofNat (48 + n % 10)]

def natRepr (n : Nat) : String :=
  if n = 0 then "0" else String.mk (natReprAux (n + 1) n)

/-- `n` printed as `k` digits with leading zeros (for fraction places). -/
def padZ (k n : Nat) : String :=
  let s := natRepr n
  String.mk (List.replicate (k - s.length) '0') ++ s

/-- Least `k ≤ 17` with `d ∣ 10^k`: the decimal exponent of a denominator. -/
def findExp (d : Nat) : Option Nat :=
  (List.range 18).find? (fun k => 10 ^ k % d = 0)

/-- Python `repr`/`str` of a float, in the exact-decimal model: minimal
terminating decimal expansion, `.0` for integral values; a value whose
denominator divides no power of ten is truncated at 17 places. -/
def pyFloatRepr (q : Q) : String :=
  let sgn := if q.num < 0 then "-" else ""
  let n := q.num.natAbs
  let d := q.den
  match findExp d with
  | some k =>
    if k = 0 then sgn ++ natRepr (n / d) ++ ".0"
    else
      let scaled := n * 10 ^ k / d
      sgn ++ natRepr (scaled / 10 ^ k) ++ "." ++ padZ k (scaled % 10 ^ k)
  | none =>
    let scaled := n * 10 ^ 17 / d
    sgn ++ natRepr (scaled / 10 ^ 17) ++ "." ++ padZ 17 (scaled % 10 ^ 17)

/-- Python `f"{x:.2f}"` where `x` holds the double nearest to the exact
value: CPython correctly rounds the double's exact binary value to two
decimals, ties to even (so the exact decimal 2.675, stored as the double
2.67499…, prints `2.67`). -/
def format2f (q : Q) : String :=
  let w := nearestDouble q
  let c : Int := roundHalfEven (qMul w ⟨100, 1⟩)
  let sgn := if c < 0 then "-" else ""
  let a := c.natAbs
  sgn ++ natRepr (a / 100) ++ "." ++ padZ 2 (a % 100)

/-! ### Python values and `parse_price` (app.py lines 17-28) -/

/-- A Python value as stored in an offer dict: `None`, a string, or a float. -/
inductive Val where
  | vNone : Val
  | vStr : String → Val
  | vNum : Q → Val
  deriving DecidableEq

/-- Splitting a character list on `'.'` (Python `str.split('.')` shape). -/
def splitDotAux : List Char → List Char → List (List Char)
  | [], acc => [acc.reverse]
  | c :: t, acc => if c = '.' then acc.reverse :: splitDotAux t [] else splitDotAux t (c :: acc)

/-- Python `float(...)` restricted to strings of digits and dots: succeeds
exactly when there is at least one digit and at most one dot. -/
def pyFloatLit (l : List Char) : Option Q :=
  match splitDotAux l [] with
  | [a] =>
    if a.length ≠ 0 && a.all isDigitC then some ⟨(natOfDigits a : Int), 1⟩ else none
  | [a, b] =>
    if (a ++ b).length ≠ 0 && (a ++ b).all isDigitC then
      some (mkQ ((natOfDigits a * 10 ^ b.length + natOfDigits b : Nat) : Int) ((10 : Int) ^ b.length))
    else none
  | _ => none

/-- The cleaning pass of `parse_price` (app.py lines 22-24): drop every `'.'`
(thousands separator), turn `','` into `'.'` (decimal separator), then keep
only digits and dots. -/
def cleanedPrice (s : String) : List Char :=
  ((s.data.filter (fun c => c ≠ '.')).map (fun c => if c = ',' then '.' else c)).filter
    (fun c => isDigitC c || c = '.')

/-- `parse_price` (app.py lines 17-28).  A non-string or empty input is
rejected up front; a cleaned string with no characters left, or one that
`float` rejects (no digit, or two dots from two commas), yields `none`. -/
def parse_price (v : Val) : Option Q :=
  match v with
  | Val.vStr s =>
    if s = "" then none
    else
      let c2 := cleanedPrice s
      if c2.length = 0 then none else pyFloatLit c2
  | _ => none

/-! ### Scanners for the regular expressions of app.py

Each Python `re.search` call is rendered as a matcher that tries the
pattern at one position (`try…`) plus the generic leftmost scan
(`searchWith`).  Greedy runs of `\d+` and `\s*` never need to be given
back here: every token that can follow such a run in these patterns is
disjoint from the run's character class, so the maximal munch is the only
candidate.  The one genuine choice point — an optional group whose
presence can make the remainder fail — is tried both ways. -/

/-- Greedy `\d+` split: maximal leading digit run and the rest. -/
def takeDigits : List Char → List Char × List Char
  | [] => ([], [])
  | c :: t =>
    if isDigitC c then
      let p := takeDigits t
      (c :: p.1, p.2)
    else ([], c :: t)

/-- `\d+`: at least one digit, greedy. -/
def lexDigits (l : List Char) : Option (List Char × List Char) :=
  match takeDigits l with
  | ([], _) => none
  | (d, r) => some (d, r)

/-- `\s*`: drop a greedy run of whitespace. -/
def skipSpaces : List Char → List Char
  | [] => []
  | c :: t => if isSpaceC c then skipSpaces t else c :: t

/-- Match a literal word at the head, returning the rest. -/
def lexLit : List Char → List Char → Option (List Char)
  | [], r => some r
  | _ :: _, [] => none
  | c :: w, x :: r => if x = c then lexLit w r else none

/-- An alternation of literal words, tried left to right as in the regex. -/
def lexFirst : List (List Char) → List Char → Option (List Char × List Char)
  | [], _ => none
  | w :: ws, l =>
    match lexLit w l with
    | some r => some (w, r)
    | none => lexFirst ws l

/-- The optional fractional tail `(?:[,\.]\d+)?`, greedy. -/
def fracTail (r : List Char) : Option (List Char × List Char) :=
  match r with
  | c :: t =>
    if c = ',' || c = '.' then
      match lexDigits t with
      | some (d2, r2) => some (c :: d2, r2)
      | none => none
    else none
  | [] => none

/-- Leftmost-match scan: try the matcher at every position left to right. -/
def searchWith (f : List Char → Option α) : List Char → Option α
  | [] => f []
  | c :: t =>
    match f (c :: t) with
    | some r => some r
    | none => searchWith f t

/-- `needle.isPrefixOf hay` on character lists. -/
def isPre : List Char → List Char → Bool
  | [], _ => true
  | _ :: _, [] => false
  | c :: w, x :: r => x = c && isPre w r

/-- Python `needle in hay` substring test. -/
def containsSub : List Char → List Char → Bool
  | [], nd => nd.isEmpty
  | c :: t, nd => isPre nd (c :: t) || containsSub t nd

/-- The unit alternation `(kg|g|l|liter|ml|stk|stück|st)` in regex order. -/
def unitWords : List (List Char) :=
  ["kg", "g", "l", "liter", "ml", "stk", "stück", "st"].map String.data

/-- The pack-word alternation `(pack|pkg|tray|kiste|beutel|netz|schale)`. -/
def packWords : List (List Char) :=
  ["pack", "pkg", "tray", "kiste", "beutel", "netz", "schale"].map String.data

/-- The closing `\s*(unit)` of the multipack pattern, applied to a
candidate quantity capture; groups `(count, quantity, unit)`. -/
def multiTail (n num r : List Char) : Option (List Char × List Char × List Char) :=
  match lexFirst unitWords (skipSpaces r) with
  | some (u, _) => some (n, num, u)
  | none => none

/-- Multipack pattern `(\d+)\s*x\s*(\d+(?:[,\.]\d+)?)\s*(unit)` (app.py
line 43) at one position; groups `(count, quantity, unit)`. -/
def tryMulti (l : List Char) : Option (List Char × List Char × List Char) :=
  match lexDigits l with
  | none => none
  | some (n, r0) =>
    match lexLit ['x'] (skipSpaces r0) with
    | none => none
    | some r1 =>
      match lexDigits (skipSpaces r1) with
      | none => none
      | some (d, r2) =>
        match fracTail r2 with
        | some (fr, r3) =>
          match multiTail n (d ++ fr) r3 with
          | some res => some res
          | none => multiTail n d r2
        | none => multiTail n d r2

/-- The closing `\s*(unit)` of the single-quantity pattern, applied to a
candidate quantity capture; groups `(quantity, unit)`. -/
def singleTail (num r : List Char) : Option (List Char × List Char) :=
  match lexFirst unitWords (skipSpaces r) with
  | some (u, _) => some (num, u)
  | none => none

/-- Single-quantity pattern `(\d+(?:[,\.]\d+)?)\s*(unit)` (app.py line 53)
at one position; groups `(quantity, unit)`. -/
def trySingle (l : List Char) : Option (List Char × List Char) :=
  match lexDigits l with
  | none => none
  | some (d, r) =>
    match fracTail r with
    | some (fr, r1) =>
      match singleTail (d ++ fr) r1 with
      | some res => some res
      | none => singleTail d r
    | none => singleTail d r

/-- Pack-count pattern `(\d+)\s*(er)\s*(pack-word)` (app.py line 62) at one
position; group 1, the item count. -/
def tryPackCount (l : List Char) : Option (List Char) :=
  match lexDigits l with
  | none => none
  | some (n, r0) =>
    match lexLit ('e' :: ['r']) (skipSpaces r0) with
    | none => none
    | some r1 =>
      match lexFirst packWords (skipSpaces r1) with
      | some _ => some n
      | none => none

/-- Normalization of a matched unit token (app.py lines 48-49 and 57-58):
`liter` to `l`, `stück`/`stk` to `Stück`; note that `st` is left as is. -/
def normUnit (u : List Char) : String :=
  let s := String.mk u
  if s = "liter" then "l"
  else if s = "stück" || s = "stk" then "Stück"
  else s

/-- `extract_quantity_and_unit_from_string` (app.py lines 30-72): ordered
rules — multipack, single quantity, pack count, bare keyword, no match. -/
def extract_quantity_and_unit_from_string (text : String) :
    Option Q × Option String × Nat :=
  let t := (pyLower text).data
  match searchWith tryMulti t with
  | some (n, q, u) =>
    (parse_price (Val.vStr (String.mk q)), some (normUnit u), natOfDigits n)
  | none =>
  match searchWith trySingle t with
  | some (q, u) =>
    (parse_price (Val.vStr (String.mk q)), some (normUnit u), 1)
  | none =>
  match searchWith tryPackCount t with
  | some n => (some ⟨1, 1⟩, some "Stück", natOfDigits n)
  | none =>
  if containsSub t "stück".data || containsSub t "stk".data || containsSub t "st".data then
    (some ⟨1, 1⟩, some "Stück", 1)
  else if containsSub t "packung".data || containsSub t "pkg".data then
    (some ⟨1, 1⟩, some "Packung", 1)
  else if containsSub t "flasche".data then (some ⟨1, 1⟩, some "Flasche", 1)
  else if containsSub t "bund".data then (some ⟨1, 1⟩, some "Bund", 1)
  else (none, none, 1)

/-! ### Offer dictionaries and `standardize_offer_price` (app.py lines 74-176) -/

/-- A Python dict as an insertion-ordered association list. -/
abbrev Dict := List (String × Val)

/-- Decidable equality on exception-carrying results, for evaluation. -/
instance exceptDecEq {ε α : Type} [DecidableEq ε] [DecidableEq α] :
    DecidableEq (Except ε α) := fun a b =>
  match a, b with
  | Except.error e, Except.error f =>
    if h : e = f then isTrue (by rw [h]) else isFalse (fun c => by cases c; exact h rfl)
  | Except.error _, Except.ok _ => isFalse (fun c => by cases c)
  | Except.ok _, Except.error _ => isFalse (fun c => by cases c)
  | Except.ok x, Except.ok y =>
    if h : x = y then isTrue (by rw [h]) else isFalse (fun c => by cases c; exact h rfl)

/-- `d.get(key, default)`. -/
def dictGet : Dict → String → Val → Val
  | [], _, dflt => dflt
  | (k, v) :: t, key, dflt => if k = key then v else dictGet t key dflt

/-- `d.get(key)` / key presence. -/
def dictLookup : Dict → String → Option Val
  | [], _ => none
  | (k, v) :: t, key => if k = key then some v else dictLookup t key

/-- `d[key] = v`: overwrite in place, or append a new key at the end. -/
def dictSet : Dict → String → Val → Dict
  | [], key, v => [(key, v)]
  | (k, w) :: t, key, v =>
    if k = key then (key, v) :: t else (k, w) :: dictSet t key v

/-- How a value renders inside a Python f-string. -/
def pyStr (v : Val) : String :=
  match v with
  | Val.vStr s => s
  | Val.vNone => "None"
  | Val.vNum q => pyFloatRepr q

/-- Python truthiness of a stored value (`not x`). -/
def pyFalsy (v : Val) : Bool :=
  match v with
  | Val.vStr s => s = ""
  | Val.vNone => true
  | Val.vNum q => q.num = 0

/-- `x.lower()` on a fetched value: an `AttributeError` unless it is a
string. -/
def valLowerE (v : Val) : Except Unit String :=
  match v with
  | Val.vStr s => Except.ok (pyLower s)
  | _ => Except.error ()

/-- An optional price as stored in the dict (`None` or a float). -/
def optQVal (o : Option Q) : Val :=
  match o with
  | none => Val.vNone
  | some q => Val.vNum q

/-- The tail of the bulk-condition pattern after the optional item word:
`\s*(?:für|zum preis von|nur)\s*(\d+([,\.]\d+)?)`; groups
`(count, total-price text)`. -/
def condTail (n r : List Char) : Option (List Char × List Char) :=
  match lexFirst (["für", "zum preis von", "nur"].map String.data) (skipSpaces r) with
  | none => none
  | some (_, r2) =>
    match lexDigits (skipSpaces r2) with
    | none => none
    | some (d, r3) =>
      match fracTail r3 with
      | some (fr, _) => some (n, d ++ fr)
      | none => some (n, d)

/-- Bulk-condition pattern (app.py line 98):
`(\d+)\s*(?:stück|stk|packungen|pkg)?\s*(?:für|zum preis von|nur)\s*(\d+([,\.]\d+)?)`
at one position; groups `(count, total-price text)`.  The optional item
word is also retried as absent when taking it blocks the rest. -/
def tryCond (l : List Char) : Option (List Char × List Char) :=
  match lexDigits l with
  | none => none
  | some (n, r0) =>
    match lexFirst (["stück", "stk", "packungen", "pkg"].map String.data) (skipSpaces r0) with
    | some (_, r2) =>
      match condTail n r2 with
      | some res => some res
      | none => condTail n (skipSpaces r0)
    | none => condTail n (skipSpaces r0)

/-- The note of app.py line 105, with the effective price at two decimals. -/
def condNote (n : Nat) (t c : Q) : String :=
  "Original: " ++ natRepr n ++ " for " ++ pyFloatRepr t ++
    "€. Effective price per item: " ++ format2f c ++ "€."

/-- The `X für Y€` step of `standardize_offer_price` (app.py lines 97-105):
on a match with a positive count and a parsed total, the division
`total / num_items` first converts the int count to a float — a count at
or above `floatMaxNat` raises `OverflowError` (`Except.error`).  Below
it, the new per-item price and its note; otherwise nothing, leaving
price and notes untouched. -/
def conditionStep (condLower : String) : Except Unit (Option (Q × String)) :=
  match searchWith tryCond condLower.data with
  | none => Except.ok none
  | some (nStr, mStr) =>
    let n := natOfDigits nStr
    match parse_price (Val.vStr (String.mk mStr)) with
    | none => Except.ok none
    | some t =>
      if 0 < n then
        if floatMaxNat ≤ n then Except.error ()
        else Except.ok (some (qDiv t ⟨(n : Int), 1⟩, condNote n t (qDiv t ⟨(n : Int), 1⟩)))
      else Except.ok none

/-- The `original_unit_info` provenance string (app.py line 116). -/
def origInfo (us pn cs : Val) : String :=
  "Unit: '" ++ pyStr us ++ "', Product: '" ++ pyStr pn ++ "', Cond: '" ++ pyStr cs ++ "'"

/-- Writing the three standardization fields, in the order of the source. -/
def set3 (d : Dict) (q : Q) (u : String) (note : String) : Dict :=
  dictSet (dictSet (dictSet d "standardized_unit_price" (Val.vNum q))
    "comparable_unit" (Val.vStr u)) "standardization_notes" (Val.vStr note)

/-- The unit dispatch of app.py lines 127-154: the branch chain on the
resolved canonical unit, with the working price and note suffix already
settled. -/
def unitDispatch (offer2 : Dict) (curr : Q) (sfx : String) (uu : String) (qq : Q)
    (oui : String) : Dict :=
  if uu = "g" ∨ uu = "gramm" then
    if qPos qq then
      set3 offer2 (qMul (qDiv curr qq) ⟨1000, 1⟩) "kg"
        ("Converted to price per kg from " ++ pyFloatRepr qq ++ "g." ++ sfx ++ " " ++ oui)
    else offer2
  else if uu = "ml" then
    if qPos qq then
      set3 offer2 (qMul (qDiv curr qq) ⟨1000, 1⟩) "L"
        ("Converted to price per L from " ++ pyFloatRepr qq ++ "ml." ++ sfx ++ " " ++ oui)
    else offer2
  else if uu = "kg" then
    if qPos qq then
      set3 offer2 (qDiv curr qq) "kg"
        ("Price per kg (original " ++ pyFloatRepr qq ++ "kg)." ++ sfx ++ " " ++ oui)
    else offer2
  else if uu = "l" ∨ uu = "liter" then
    if qPos qq then
      set3 offer2 (qDiv curr qq) "L"
        ("Price per L (original " ++ pyFloatRepr qq ++ "L)." ++ sfx ++ " " ++ oui)
    else offer2
  else if uu = "Stück" ∨ uu = "Packung" ∨ uu = "Flasche" ∨ uu = "Bund" then
    if qPos qq then
      set3 offer2 (qDiv curr qq) uu
        ("Price per " ++ uu ++ " (original " ++ pyFloatRepr qq ++ " " ++ uu ++ ")." ++
          sfx ++ " " ++ oui)
    else offer2
  else
    let nv := dictGet offer2 "standardization_notes" (Val.vStr "")
    if pyFalsy nv || nv = Val.vStr "Original price used." then
      dictSet offer2 "standardization_notes" (Val.vStr ("Could not fully standardize. " ++ oui))
    else offer2

/-- The known-unit branch of app.py lines 119-154: when the extractor
produced a multipack of pieces, the working price is divided by the item
count (app.py lines 122-123) — an int-to-float conversion that raises
`OverflowError` for counts at or above `floatMaxNat` — before the unit
dispatch runs. -/
def unitBranch (offer2 : Dict) (cp1 : Q) (uu : String) (qq : Q) (ipk : Nat)
    (oui : String) : Except Unit Dict :=
  if 1 < ipk ∧ uu = "Stück" then
    if floatMaxNat ≤ ipk then Except.error ()
    else
      Except.ok (unitDispatch offer2 (qDiv cp1 ⟨(ipk : Int), 1⟩)
        (" Priced per item from " ++ natRepr ipk ++ "-pack.") uu qq oui)
  else Except.ok (unitDispatch offer2 cp1 "" uu qq oui)

/-- The per-base-unit fallback of app.py lines 156-164.  The order of the
short-circuit disjuncts is kept: `unit_str.lower()` — which raises on a
non-string — is evaluated only once both condition-text checks failed. -/
def per100Part (offer2 : Dict) (cp1 : Q) (condLower : String) (unit_str : Val)
    (oui : String) : Except Unit Dict :=
  if containsSub condLower.data "pro 100g".data || containsSub condLower.data "je 100g".data then
    Except.ok (set3 offer2 (qMul cp1 ⟨10, 1⟩) "kg"
      ("Converted to price per kg from 100g price. " ++ oui))
  else
    match valLowerE unit_str with
    | Except.error e => Except.error e
    | Except.ok ul =>
      if containsSub ul.data "100g =".data then
        Except.ok (set3 offer2 (qMul cp1 ⟨10, 1⟩) "kg"
          ("Converted to price per kg from 100g price. " ++ oui))
      else if containsSub condLower.data "pro kg".data ||
          containsSub condLower.data "je kg".data || containsSub ul.data "/kg".data then
        Except.ok (set3 offer2 cp1 "kg" ("Price is per kg. " ++ oui))
      else Except.ok offer2

/-- The final rounding pass of app.py lines 168-173: a stored standardized
price is rounded to two decimals; the defensive `except` arm falls back to
`calculated_price_float`. -/
def roundFinal (d : Dict) : Dict :=
  match dictGet d "standardized_unit_price" Val.vNone with
  | Val.vNum q => dictSet d "standardized_unit_price" (Val.vNum (pyRound2 q))
  | Val.vStr s =>
    match pyFloatLit s.data with
    | some q => dictSet d "standardized_unit_price" (Val.vNum (pyRound2 q))
    | none => dictSet d "standardized_unit_price" (dictGet d "calculated_price_float" Val.vNone)
  | Val.vNone => d

/-- The four default writes of app.py lines 85-88, in source order. -/
def initOffer (offer : Dict) (cp : Option Q) (unit_str : Val) : Dict :=
  dictSet (dictSet (dictSet (dictSet offer
    "calculated_price_float" (optQVal cp))
    "comparable_unit" unit_str)
    "standardized_unit_price" (optQVal cp))
    "standardization_notes" (Val.vStr "Original price used.")

/-- Applying the bulk-condition result to the working price and the dict
(app.py lines 99-105): an `OverflowError` from the resolver propagates;
on a resolver hit the working price changes and both
`calculated_price_float` and the note are rewritten; otherwise
everything stays. -/
def condApply (offer1 : Dict) (cp0 : Q) (condLower : String) : Except Unit (Q × Dict) :=
  match conditionStep condLower with
  | Except.error e => Except.error e
  | Except.ok (some (c', note)) =>
    Except.ok (c', dictSet (dictSet offer1 "calculated_price_float" (Val.vNum c'))
      "standardization_notes" (Val.vStr note))
  | Except.ok none => Except.ok (cp0, offer1)

/-- `standardize_offer_price` (app.py lines 74-176).  The result is the
mutated offer dict; `Except.error` is the `AttributeError` escaping when
`.lower()` is called on a present-but-non-string condition or unit field. -/
def standardize_offer_price (offer : Dict) : Except Unit Dict :=
  let product_name := dictGet offer "product_name" (Val.vStr "")
  let price_str := dictGet offer "price" (Val.vStr "")
  let unit_str := dictGet offer "unit" (Val.vStr "")
  let condition_str := dictGet offer "offer_condition" (Val.vStr "")
  let calculated_price := parse_price price_str
  let offer1 := initOffer offer calculated_price unit_str
  match calculated_price with
  | none => Except.ok (dictSet offer1 "standardization_notes" (Val.vStr "Could not parse price."))
  | some cp0 =>
    let search_text :=
      pyLower (pyStr product_name ++ " " ++ pyStr unit_str ++ " " ++ pyStr condition_str)
    match valLowerE condition_str with
    | Except.error e => Except.error e
    | Except.ok condLower =>
      match condApply offer1 cp0 condLower with
      | Except.error e => Except.error e
      | Except.ok step =>
        let ext := extract_quantity_and_unit_from_string search_text
        let oui := origInfo unit_str product_name condition_str
        let body : Except Unit Dict :=
          match ext.2.1, ext.1 with
          | some uu, some qq =>
            if uu = "" then per100Part step.2 step.1 condLower unit_str oui
            else unitBranch step.2 step.1 uu qq ext.2.2 oui
          | _, _ => per100Part step.2 step.1 condLower unit_str oui
        Except.map roundFinal body

/-! ### The batch step of `process_brochure` (app.py lines 292-293)

`standardized_all = [standardize_offer_price(offer.copy()) for offer in
all_brochure_offers]` is modelled twice: once at the level of dict values
(one independent standardization per record, in order, an exception
aborting the batch), and once at the level of object references over an
explicit store, where `offer.copy()` allocates a fresh cell and the
standardization call mutates only that fresh cell. -/

/-- Value-level batch normalization: the list comprehension of app.py
line 293. -/
def normalizeBatch : List Dict → Except Unit (List Dict)
  | [] => Except.ok []
  | d :: ds =>
    match standardize_offer_price d with
    | Except.error e => Except.error e
    | Except.ok r =>
      match normalizeBatch ds with
      | Except.error e => Except.error e
      | Except.ok rs => Except.ok (r :: rs)

/-- Reference-level batch normalization over a store of dict objects.
Each input reference is read, `offer.copy()` allocates the copy at a
fresh index, and `standardize_offer_price` writes its mutation back into
that fresh cell only; the returned references point at the copies. -/
def batchAux : List Dict → List Nat → Except Unit (List Dict × List Nat)
  | store, [] => Except.ok (store, [])
  | store, r :: rs =>
    match store[r]? with
    | none => Except.error ()
    | some d =>
      match standardize_offer_price d with
      | Except.error e => Except.error e
      | Except.ok d' =>
        match batchAux ((store ++ [d]).set store.length d') rs with
        | Except.error e => Except.error e
        | Except.ok (store', outs) => Except.ok (store', store.length :: outs)

/-- Projection of the three standardization outputs of a result dict. -/
def resultTriple (e : Except Unit Dict) : Except Unit (Val × Val × Val) :=
  e.map fun r =>
    (dictGet r "calculated_price_float" Val.vNone,
     dictGet r "comparable_unit" Val.vNone,
     dictGet r "standardized_unit_price" Val.vNone)

/-! ### Claim inputs and result projections -/

/-- The result dict has the `comparable_unit` key. -/
def hasCU (d : Dict) : Prop := (dictLookup d "comparable_unit").isSome = true

/-- The worked example of the spec with price text `0.95`, unit text
`1-L-Packung` and condition `2 Stück für 1.80`. -/
def c1offer : Dict :=
  [("price", Val.vStr "0.95"), ("unit", Val.vStr "1-L-Packung"),
   ("offer_condition", Val.vStr "2 Stück für 1.80")]

/-- The worked example of the spec with price text `1.29` and unit text
`250-g-Packung`, with the condition field absent. -/
def c6offer : Dict :=
  [("price", Val.vStr "1.29"), ("unit", Val.vStr "250-g-Packung")]

/-- A minimal record whose price does not parse and whose unit is absent. -/
def sampleOffer : Dict := [("price", Val.vStr "x")]

/-- What `standardize_offer_price` returns on `sampleOffer`. -/
def sampleResult : Dict :=
  [("price", Val.vStr "x"), ("calculated_price_float", Val.vNone),
   ("comparable_unit", Val.vStr ""), ("standardized_unit_price", Val.vNone),
   ("standardization_notes", Val.vStr "Could not parse price.")]


/-- A record whose product name carries a 310-digit pack count: the
pack-count rule yields `items_in_pack = 10^310 - 1 ≥ floatMaxNat` with
unit `Stück`, so the per-pack division (app.py line 123) raises
`OverflowError`. -/
def overflowOffer : Dict :=
  [("product_name", Val.vStr (String.mk (List.replicate 310 '9' ++ ("er Pack").data))),
   ("price", Val.vStr "1")]

/-! ### Dictionary lemmas -/

theorem dictLookup_dictSet (d : Dict) (k : String) (v : Val) (k' : String) :
    dictLookup (dictSet d k v) k' = if k' = k then some v else dictLookup d k' := by
  induction d with
  | nil =>
    simp only [dictSet, dictLookup]
    rcases eq_or_ne k' k with h | h
    · subst h; simp
    · simp [h, Ne.symm h]
  | cons p t ih =>
    rcases p with ⟨a, b⟩
    simp only [dictSet]
    rcases eq_or_ne a k with hak | hak
    · subst hak
      rcases eq_or_ne k' a with h | h
      · subst h; simp [dictLookup]
      · simp [dictLookup, h, Ne.symm h]
    · rcases eq_or_ne k' a with h | h
      · subst h; simp [dictLookup, hak, Ne.symm hak]
      · simp [dictLookup, hak, Ne.symm h, ih]

theorem lookup_dictSet_self (d : Dict) (k : String) (v : Val) :
    dictLookup (dictSet d k v) k = some v := by
  rw [dictLookup_dictSet]; simp

theorem hasCU_set (d : Dict) (k : String) (v : Val) (h : hasCU d) :
    hasCU (dictSet d k v) := by
  unfold hasCU at *
  rw [dictLookup_dictSet]
  split
  · rfl
  · exact h

theorem hasCU_set_cu (d : Dict) (v : Val) : hasCU (dictSet d "comparable_unit" v) := by
  unfold hasCU
  rw [lookup_dictSet_self]
  rfl

theorem hasCU_set3 (d : Dict) (q : Q) (u note : String) : hasCU (set3 d q u note) :=
  hasCU_set _ _ _ (hasCU_set_cu _ _)

theorem hasCU_initOffer (offer : Dict) (cp : Option Q) (us : Val) :
    hasCU (initOffer offer cp us) :=
  hasCU_set _ _ _ (hasCU_set _ _ _ (hasCU_set_cu _ _))

theorem hasCU_condApply (offer1 : Dict) (cp0 : Q) (cl : String) (step : Q × Dict)
    (h : condApply offer1 cp0 cl = Except.ok step) (ho : hasCU offer1) :
    hasCU step.2 := by
  unfold condApply at h
  rcases hcs : conditionStep cl with e | o
  · rw [hcs] at h
    exact Except.noConfusion h
  · rw [hcs] at h
    rcases o with _ | ⟨c', note⟩
    · dsimp only at h
      injection h with h'
      subst h'
      exact ho
    · dsimp only at h
      injection h with h'
      subst h'
      exact hasCU_set _ _ _ (hasCU_set _ _ _ ho)

theorem hasCU_unitDispatch (offer2 : Dict) (curr : Q) (sfx uu : String) (qq : Q)
    (oui : String) (h : hasCU offer2) : hasCU (unitDispatch offer2 curr sfx uu qq oui) := by
  simp only [unitDispatch]
  repeat' split
  all_goals first
    | exact hasCU_set3 _ _ _ _
    | exact hasCU_set _ _ _ h
    | exact h

theorem hasCU_unitBranch (offer2 : Dict) (cp1 : Q) (uu : String) (qq : Q) (ipk : Nat)
    (oui : String) (r : Dict) (h : unitBranch offer2 cp1 uu qq ipk oui = Except.ok r)
    (ho : hasCU offer2) : hasCU r := by
  unfold unitBranch at h
  repeat' split at h
  all_goals first
    | (injection h with h'; subst h'; exact hasCU_unitDispatch _ _ _ _ _ _ ho)
    | exact Except.noConfusion h

theorem hasCU_per100 (o : Dict) (c : Q) (cl : String) (us : Val) (oui : String)
    (r : Dict) (h : per100Part o c cl us oui = Except.ok r) (ho : hasCU o) : hasCU r := by
  unfold per100Part at h
  repeat' split at h
  all_goals first
    | (cases h; exact hasCU_set3 _ _ _ _)
    | (cases h; exact ho)
    | cases h

theorem hasCU_roundFinal (d : Dict) (h : hasCU d) : hasCU (roundFinal d) := by
  unfold roundFinal
  repeat' split
  all_goals first
    | exact hasCU_set _ _ _ h
    | exact h

/-- Every non-raising run of `per100Part` on a string-valued unit field
returns a dict. -/
theorem per100_ok (o : Dict) (c : Q) (cl : String) (us : String) (oui : String) :
    ∃ r, per100Part o c cl (Val.vStr us) oui = Except.ok r := by
  unfold per100Part
  simp only [valLowerE]
  repeat' split
  all_goals exact ⟨_, rfl⟩

/-! ### Bounds: digit groups captured from bounded text stay below the
float-conversion overflow threshold -/

theorem floatMaxNat_eq : floatMaxNat = 2 ^ 1024 - 2 ^ 970 := by
  norm_num [floatMaxNat]

theorem two_pow_1010_le_floatMaxNat : (2 : Nat) ^ 1010 ≤ floatMaxNat := by
  rw [floatMaxNat_eq]
  have ha : (2 : Nat) ^ 970 ≤ 2 ^ 1010 := Nat.pow_le_pow_right (by norm_num) (by omega)
  have hb : (2 : Nat) ^ 1010 + 2 ^ 1010 = 2 ^ 1011 := by
    rw [← two_mul, ← pow_succ']
  have hc : (2 : Nat) ^ 1011 ≤ 2 ^ 1024 := Nat.pow_le_pow_right (by norm_num) (by omega)
  omega

theorem pow10_302_lt_floatMaxNat : (10 : Nat) ^ 302 < floatMaxNat := by
  have h1 : (10 : Nat) ^ 302 < 10 ^ 303 := Nat.pow_lt_pow_right (by norm_num) (by omega)
  have h2 : (10 : Nat) ^ 303 = 1000 ^ 101 := by
    rw [show (1000 : Nat) = 10 ^ 3 by norm_num, ← pow_mul]
  have h3 : (1000 : Nat) ^ 101 < 1024 ^ 101 := Nat.pow_lt_pow_left (by norm_num) (by norm_num)
  have h4 : (1024 : Nat) ^ 101 = 2 ^ 1010 := by
    rw [show (1024 : Nat) = 2 ^ 10 by norm_num, ← pow_mul]
  have h5 := two_pow_1010_le_floatMaxNat
  omega

theorem one_lt_floatMaxNat : 1 < floatMaxNat := by
  have h1 := two_pow_1010_le_floatMaxNat
  have h2 : 2 ≤ (2 : Nat) ^ 1010 := Nat.le_self_pow (by omega) 2
  omega

theorem takeDigits_fst_length (l : List Char) : (takeDigits l).1.length ≤ l.length := by
  induction l with
  | nil => simp [takeDigits]
  | cons c t ih =>
    simp only [takeDigits]
    split
    · simpa using ih
    · simp

theorem takeDigits_fst_digits (l : List Char) :
    ∀ c ∈ (takeDigits l).1, isDigitC c = true := by
  induction l with
  | nil => simp [takeDigits]
  | cons c t ih =>
    simp only [takeDigits]
    split
    · intro x hx
      rcases List.mem_cons.mp hx with rfl | hx'
      · assumption
      · exact ih x hx'
    · simp

theorem lexDigits_some (l d r : List Char) (h : lexDigits l = some (d, r)) :
    d.length ≤ l.length ∧ ∀ c ∈ d, isDigitC c = true := by
  unfold lexDigits at h
  rcases htd : takeDigits l with ⟨d0, r0⟩
  rw [htd] at h
  cases d0 with
  | nil => exact absurd h (by simp)
  | cons c t' =>
    simp only [Option.some.injEq, Prod.mk.injEq] at h
    obtain ⟨h1, _⟩ := h
    subst h1
    constructor
    · have h2 := takeDigits_fst_length l
      rw [htd] at h2
      exact h2
    · have h2 := takeDigits_fst_digits l
      rw [htd] at h2
      exact h2

theorem searchWith_some {α : Type} (f : List Char → Option α) (l : List Char) (x : α)
    (h : searchWith f l = some x) : ∃ l', l'.length ≤ l.length ∧ f l' = some x := by
  induction l with
  | nil => exact ⟨[], Nat.le_refl _, by simpa [searchWith] using h⟩
  | cons c t ih =>
    rw [searchWith] at h
    rcases hf : f (c :: t) with _ | r
    · rw [hf] at h
      dsimp only at h
      obtain ⟨l', h1, h2⟩ := ih h
      exact ⟨l', Nat.le_succ_of_le h1, h2⟩
    · rw [hf] at h
      dsimp only at h
      injection h with h'
      subst h'
      exact ⟨c :: t, Nat.le_refl _, hf⟩

theorem multiTail_fst (nn num r a b c : List Char)
    (h : multiTail nn num r = some (a, b, c)) : a = nn := by
  unfold multiTail at h
  rcases hf : lexFirst unitWords (skipSpaces r) with _ | ⟨u, r2⟩
  · rw [hf] at h
    exact Option.noConfusion h
  · rw [hf] at h
    dsimp only at h
    injection h with h'
    injection h' with h1 h2
    exact h1.symm

theorem condTail_fst (nn r a b : List Char) (h : condTail nn r = some (a, b)) : a = nn := by
  unfold condTail at h
  repeat' split at h
  all_goals first
    | exact Option.noConfusion h
    | (injection h with h'; injection h' with h1 h2; exact h1.symm)

/-- The bulk-condition pattern's count group is a digit run from the
scanned text: no longer than the text, all digits. -/
theorem tryCond_count (l nStr mStr : List Char) (h : tryCond l = some (nStr, mStr)) :
    nStr.length ≤ l.length ∧ ∀ c ∈ nStr, isDigitC c = true := by
  unfold tryCond at h
  rcases hld : lexDigits l with _ | ⟨d, r0⟩
  · rw [hld] at h
    exact Option.noConfusion h
  · rw [hld] at h
    dsimp only at h
    obtain ⟨hlen, hdig⟩ := lexDigits_some l d r0 hld
    have hnd : nStr = d := by
      rcases hlf : lexFirst (["stück", "stk", "packungen", "pkg"].map String.data)
          (skipSpaces r0) with _ | ⟨w, r2⟩
      · rw [hlf] at h
        dsimp only at h
        exact condTail_fst d (skipSpaces r0) nStr mStr h
      · rw [hlf] at h
        dsimp only at h
        rcases hct : condTail d r2 with _ | res
        · rw [hct] at h
          dsimp only at h
          exact condTail_fst d (skipSpaces r0) nStr mStr h
        · rw [hct] at h
          dsimp only at h
          injection h with h'
          subst h'
          exact condTail_fst d r2 nStr mStr hct
    subst hnd
    exact ⟨hlen, hdig⟩

/-- The multipack pattern's count group is a digit run from the text. -/
theorem tryMulti_count (l n q u : List Char) (h : tryMulti l = some (n, q, u)) :
    n.length ≤ l.length ∧ ∀ c ∈ n, isDigitC c = true := by
  unfold tryMulti at h
  rcases hld : lexDigits l with _ | ⟨d, r0⟩
  · rw [hld] at h
    exact Option.noConfusion h
  · rw [hld] at h
    dsimp only at h
    obtain ⟨hlen, hdig⟩ := lexDigits_some l d r0 hld
    have hnd : n = d := by
      rcases hx : lexLit ['x'] (skipSpaces r0) with _ | r1
      · rw [hx] at h
        exact Option.noConfusion h
      · rw [hx] at h
        dsimp only at h
        rcases hld2 : lexDigits (skipSpaces r1) with _ | ⟨d2, r2⟩
        · rw [hld2] at h
          exact Option.noConfusion h
        · rw [hld2] at h
          dsimp only at h
          rcases hft : fracTail r2 with _ | ⟨fr, r3⟩
          · rw [hft] at h
            dsimp only at h
            exact multiTail_fst d d2 r2 n q u h
          · rw [hft] at h
            dsimp only at h
            rcases hmt : multiTail d (d2 ++ fr) r3 with _ | res
            · rw [hmt] at h
              dsimp only at h
              exact multiTail_fst d d2 r2 n q u h
            · rw [hmt] at h
              dsimp only at h
              injection h with h'
              subst h'
              exact multiTail_fst d (d2 ++ fr) r3 n q u hmt
    subst hnd
    exact ⟨hlen, hdig⟩

/-- The pack-count pattern's count group is a digit run from the text. -/
theorem tryPackCount_count (l n : List Char) (h : tryPackCount l = some n) :
    n.length ≤ l.length ∧ ∀ c ∈ n, isDigitC c = true := by
  unfold tryPackCount at h
  rcases hld : lexDigits l with _ | ⟨d, r0⟩
  · rw [hld] at h
    exact Option.noConfusion h
  · rw [hld] at h
    dsimp only at h
    obtain ⟨hlen, hdig⟩ := lexDigits_some l d r0 hld
    have hnd : n = d := by
      repeat' split at h
      all_goals first
        | exact Option.noConfusion h
        | (simp only [Option.some.injEq] at h; exact h.symm)
    subst hnd
    exact ⟨hlen, hdig⟩

theorem foldl_digits_lt (l : List Char) (h : ∀ c ∈ l, isDigitC c = true) :
    ∀ acc : Nat, l.foldl (fun a c => a * 10 + (c.toNat - 48)) acc < (acc + 1) * 10 ^ l.length := by
  induction l with
  | nil => intro acc; simpa using Nat.lt_succ_self acc
  | cons c t ih =>
    intro acc
    have hc : isDigitC c = true := h c (List.mem_cons_self c t)
    have hd : c.toNat - 48 ≤ 9 := by
      unfold isDigitC at hc
      simp only [Bool.and_eq_true, decide_eq_true_eq] at hc
      omega
    have ht : ∀ x ∈ t, isDigitC x = true := fun x hx => h x (List.mem_cons_of_mem _ hx)
    have h1 := ih ht (acc * 10 + (c.toNat - 48))
    simp only [List.foldl_cons, List.length_cons]
    calc t.foldl (fun a c => a * 10 + (c.toNat - 48)) (acc * 10 + (c.toNat - 48))
        < (acc * 10 + (c.toNat - 48) + 1) * 10 ^ t.length := h1
      _ ≤ ((acc + 1) * 10) * 10 ^ t.length :=
          Nat.mul_le_mul_right _ (by omega)
      _ = (acc + 1) * 10 ^ (t.length + 1) := by ring

theorem natOfDigits_lt (l : List Char) (h : ∀ c ∈ l, isDigitC c = true) :
    natOfDigits l < 10 ^ l.length := by
  have h1 := foldl_digits_lt l h 0
  simpa [natOfDigits] using h1

/-- A 302-character text cannot carry a digit run that reaches the
float-conversion threshold. -/
theorem digits_below_threshold (l' nStr : List Char) (hln : nStr.length ≤ l'.length)
    (hdig : ∀ c ∈ nStr, isDigitC c = true) (hl : l'.length ≤ 302) :
    natOfDigits nStr < floatMaxNat := by
  have h1 : natOfDigits nStr < 10 ^ 302 :=
    lt_of_lt_of_le (natOfDigits_lt nStr hdig)
      (Nat.pow_le_pow_right (by norm_num) (by omega))
  exact lt_trans h1 pow10_302_lt_floatMaxNat

/-- On a condition text of at most 302 characters, the bulk-condition
resolver never raises. -/
theorem conditionStep_ok (cl : String) (hl : cl.data.length ≤ 302) :
    ∃ o, conditionStep cl = Except.ok o := by
  unfold conditionStep
  rcases hs : searchWith tryCond cl.data with _ | ⟨nStr, mStr⟩
  · exact ⟨none, rfl⟩
  · obtain ⟨l', hle, hf⟩ := searchWith_some _ _ _ hs
    obtain ⟨hln, hdig⟩ := tryCond_count l' nStr mStr hf
    have hb : natOfDigits nStr < floatMaxNat :=
      digits_below_threshold l' nStr hln hdig (le_trans hle hl)
    dsimp only
    rcases hp : parse_price (Val.vStr (String.mk mStr)) with _ | t
    · simp only [hp]
      exact ⟨none, rfl⟩
    · simp only [hp]
      by_cases hn : 0 < natOfDigits nStr
      · rw [if_pos hn, if_neg (not_le.mpr hb)]
        exact ⟨_, rfl⟩
      · rw [if_neg hn]
        exact ⟨none, rfl⟩

theorem condApply_ok (offer1 : Dict) (cp0 : Q) (cl : String) (o : Option (Q × String))
    (h : conditionStep cl = Except.ok o) :
    ∃ p, condApply offer1 cp0 cl = Except.ok p := by
  unfold condApply
  rw [h]
  rcases o with _ | ⟨c', note⟩
  · exact ⟨_, rfl⟩
  · exact ⟨_, rfl⟩

theorem unitBranch_ok (offer2 : Dict) (cp1 : Q) (uu : String) (qq : Q) (ipk : Nat)
    (oui : String) (h : ipk < floatMaxNat) :
    ∃ r, unitBranch offer2 cp1 uu qq ipk oui = Except.ok r := by
  unfold unitBranch
  split
  · rw [if_neg (not_le.mpr h)]
    exact ⟨_, rfl⟩
  · exact ⟨_, rfl⟩

/-- On a search text of at most 302 characters, the extracted pack count
stays below the float-conversion threshold. -/
theorem extract_ipk_lt (text : String) (hl : text.data.length ≤ 302) :
    (extract_quantity_and_unit_from_string text).2.2 < floatMaxNat := by
  have hlen : (pyLower text).data.length ≤ 302 := by
    have h1 : (pyLower text).data.length = text.data.length := by
      simp [pyLower]
    omega
  simp only [extract_quantity_and_unit_from_string]
  rcases hA : searchWith tryMulti (pyLower text).data with _ | ⟨n, q, u⟩
  · simp only [hA]
    rcases hB : searchWith trySingle (pyLower text).data with _ | p
    · simp only [hB]
      rcases hC : searchWith tryPackCount (pyLower text).data with _ | n
      · simp only [hC]
        repeat' split
        all_goals exact one_lt_floatMaxNat
      · simp only [hC]
        obtain ⟨l', hle, hf⟩ := searchWith_some _ _ _ hC
        obtain ⟨hln, hdig⟩ := tryPackCount_count l' n hf
        exact digits_below_threshold l' n hln hdig (le_trans hle hlen)
    · rcases p with ⟨qStr, uStr⟩
      simp only [hB]
      exact one_lt_floatMaxNat
  · simp only [hA]
    obtain ⟨l', hle, hf⟩ := searchWith_some _ _ _ hA
    obtain ⟨hln, hdig⟩ := tryMulti_count l' n q u hf
    exact digits_below_threshold l' n hln hdig (le_trans hle hlen)

/-- Totality of `standardize_offer_price` on records whose product, unit
and condition fields are strings of at most 100 characters each (present
or absent; an absent key reads as the empty string): the `.lower()`
calls see strings, and every digit run is far too short to reach the
float-conversion overflow threshold, so no fault can arise.  The price
field may hold anything. -/
theorem standardizeTotal (offer : Dict) (pn cs us : String)
    (hpn : dictGet offer "product_name" (Val.vStr "") = Val.vStr pn)
    (hc : dictGet offer "offer_condition" (Val.vStr "") = Val.vStr cs)
    (hu : dictGet offer "unit" (Val.vStr "") = Val.vStr us)
    (hlp : pn.data.length ≤ 100) (hlc : cs.data.length ≤ 100)
    (hlu : us.data.length ≤ 100) :
    ∃ r, standardize_offer_price offer = Except.ok r := by
  simp only [standardize_offer_price, hpn, hc, hu]
  rcases hp : parse_price (dictGet offer "price" (Val.vStr "")) with _ | cp0
  · simp only [hp]
    exact ⟨_, rfl⟩
  · simp only [hp, valLowerE]
    have hcl : (pyLower cs).data.length ≤ 302 := by
      have h1 : (pyLower cs).data.length = cs.data.length := by
        simp [pyLower]
      omega
    obtain ⟨o, ho⟩ := conditionStep_ok (pyLower cs) hcl
    obtain ⟨step, hstep⟩ :=
      condApply_ok (initOffer offer (some cp0) (Val.vStr us)) cp0 (pyLower cs) o ho
    rw [hstep]
    dsimp only
    have hti : (extract_quantity_and_unit_from_string
        (pyLower (pyStr (Val.vStr pn) ++ " " ++ pyStr (Val.vStr us) ++ " " ++
          pyStr (Val.vStr cs)))).2.2 < floatMaxNat := by
      apply extract_ipk_lt
      have h1 : (pyLower (pyStr (Val.vStr pn) ++ " " ++ pyStr (Val.vStr us) ++ " " ++
          pyStr (Val.vStr cs))).data.length =
          (pyStr (Val.vStr pn) ++ " " ++ pyStr (Val.vStr us) ++ " " ++
            pyStr (Val.vStr cs)).data.length := by
        simp [pyLower]
      rw [h1]
      simp only [pyStr, String.data_append, List.length_append]
      have h2 : (" " : String).data.length = 1 := by decide
      have h3 : ([' '] : List Char).length = 1 := rfl
      omega
    rcases hext : extract_quantity_and_unit_from_string
      (pyLower (pyStr (Val.vStr pn) ++ " " ++ pyStr (Val.vStr us) ++ " " ++
        pyStr (Val.vStr cs))) with ⟨q, u, k⟩
    rw [hext] at hti
    simp only [hext]
    rcases u with _ | uu
    · obtain ⟨r, hr⟩ := per100_ok _ _ _ us _
      dsimp only
      rw [hr]
      exact ⟨_, rfl⟩
    · rcases q with _ | qq
      · obtain ⟨r, hr⟩ := per100_ok _ _ _ us _
        dsimp only
        rw [hr]
        exact ⟨_, rfl⟩
      · dsimp only
        rcases eq_or_ne uu "" with he | he
        · subst he
          obtain ⟨r, hr⟩ := per100_ok _ _ _ us _
          rw [if_pos rfl, hr]
          exact ⟨_, rfl⟩
        · rw [if_neg he]
          obtain ⟨r, hr⟩ := unitBranch_ok step.2 step.1 uu qq k
            (origInfo (Val.vStr us) (Val.vStr pn) (Val.vStr cs)) (by simpa using hti)
          rw [hr]
          exact ⟨_, rfl⟩

/-- Unfolding an `Except.map` that produced a successful result. -/
theorem mapRound_ok {b : Except Unit Dict} {r : Dict}
    (h : Except.map roundFinal b = Except.ok r) :
    ∃ x, b = Except.ok x ∧ r = roundFinal x := by
  cases b with
  | error e => simp [Except.map] at h
  | ok x =>
    simp [Except.map] at h
    exact ⟨x, rfl, h.symm⟩

/-- Every successfully returned offer carries the `comparable_unit` key:
it is written unconditionally at app.py line 86 and only ever rewritten
afterwards. -/
theorem standardize_hasCU (d r : Dict) (h : standardize_offer_price d = Except.ok r) :
    hasCU r := by
  simp only [standardize_offer_price] at h
  rcases hp : parse_price (dictGet d "price" (Val.vStr "")) with _ | cp0
  · simp only [hp] at h
    injection h with h'
    subst h'
    exact hasCU_set _ _ _ (hasCU_initOffer _ _ _)
  · simp only [hp] at h
    rcases hv : valLowerE (dictGet d "offer_condition" (Val.vStr "")) with e | cl
    · simp only [hv] at h
      exact Except.noConfusion h
    · simp only [hv] at h
      rcases hca : condApply (initOffer d (some cp0) (dictGet d "unit" (Val.vStr ""))) cp0 cl
        with e | step
      · rw [hca] at h
        exact Except.noConfusion h
      · rw [hca] at h
        have h2 : hasCU step.2 := hasCU_condApply _ _ _ _ hca (hasCU_initOffer _ _ _)
        dsimp only at h
        rcases hext : extract_quantity_and_unit_from_string
          (pyLower (pyStr (dictGet d "product_name" (Val.vStr "")) ++ " " ++
            pyStr (dictGet d "unit" (Val.vStr "")) ++ " " ++
            pyStr (dictGet d "offer_condition" (Val.vStr "")))) with ⟨q, u, k⟩
        simp only [hext] at h
        rcases u with _ | uu
        · dsimp only at h
          obtain ⟨x, hb, rfl⟩ := mapRound_ok h
          exact hasCU_roundFinal _ (hasCU_per100 _ _ _ _ _ _ hb h2)
        · rcases q with _ | qq
          · dsimp only at h
            obtain ⟨x, hb, rfl⟩ := mapRound_ok h
            exact hasCU_roundFinal _ (hasCU_per100 _ _ _ _ _ _ hb h2)
          · dsimp only at h
            obtain ⟨x, hb, rfl⟩ := mapRound_ok h
            rcases eq_or_ne uu "" with he | he
            · rw [if_pos he] at hb
              exact hasCU_roundFinal _ (hasCU_per100 _ _ _ _ _ _ hb h2)
            · rw [if_neg he] at hb
              exact hasCU_roundFinal _ (hasCU_unitBranch _ _ _ _ _ _ _ hb h2)

/-! ### Batch lemmas -/

/-- The reference-level batch never changes a pre-existing store cell:
every write lands in the fresh cell allocated by `offer.copy()`. -/
theorem batchAux_preserves (rs : List Nat) :
    ∀ store store' : List Dict, ∀ outs : List Nat,
      batchAux store rs = Except.ok (store', outs) →
      ∀ i, i < store.length → store'[i]? = store[i]? := by
  induction rs with
  | nil =>
    intro σ σ' outs h i hi
    simp only [batchAux, Except.ok.injEq, Prod.mk.injEq] at h
    obtain ⟨rfl, rfl⟩ := h
    rfl
  | cons r t ih =>
    intro σ σ' outs h i hi
    simp only [batchAux] at h
    rcases hg : σ[r]? with _ | d
    · rw [hg] at h
      exact Except.noConfusion h
    · rw [hg] at h
      dsimp only at h
      rcases hs : standardize_offer_price d with e | d'
      · rw [hs] at h
        exact Except.noConfusion h
      · rw [hs] at h
        dsimp only at h
        rcases hb : batchAux ((σ ++ [d]).set σ.length d') t with e | p
        · rw [hb] at h
          exact Except.noConfusion h
        · rcases p with ⟨σ'', outs'⟩
          rw [hb] at h
          simp only [Except.ok.injEq, Prod.mk.injEq] at h
          obtain ⟨rfl, rfl⟩ := h
          have hlen : i < ((σ ++ [d]).set σ.length d').length := by
            rw [List.length_set, List.length_append]
            omega
          have h1 := ih _ _ _ hb i hlen
          rw [h1]
          have h2 : ((σ ++ [d]).set σ.length d')[i]? = (σ ++ [d])[i]? :=
            List.getElem?_set_ne (by omega)
          rw [h2]
          exact List.getElem?_append_left hi

/-! ### The `splitDotAux` shape on digit-free cleaned strings (for C4) -/

theorem splitDot_all_dots (l : List Char) (h : ∀ c ∈ l, c = '.') :
    splitDotAux l [] = List.replicate (l.length + 1) ([] : List Char) := by
  induction l with
  | nil => rfl
  | cons c t ih =>
    have hc : c = '.' := h c (List.mem_cons_self c t)
    have ht : ∀ x ∈ t, x = '.' := fun x hx => h x (List.mem_cons_of_mem _ hx)
    subst hc
    simp [splitDotAux, ih ht, List.replicate_succ]

/-- A cleaned price string without digits is rejected by `parse_price`. -/
theorem parse_price_none_of_no_digits (s : String)
    (h : (cleanedPrice s).all (fun c => !isDigitC c) = true) :
    parse_price (Val.vStr s) = none := by
  simp only [parse_price]
  rcases eq_or_ne s "" with rfl | hs
  · simp
  · rw [if_neg hs]
    rcases hcl : cleanedPrice s with _ | ⟨c, t⟩
    · simp
    · have hdots : ∀ x ∈ (c :: t), x = '.' := by
        intro x hx
        have h1 : (!isDigitC x) = true := by
          rw [List.all_eq_true] at h
          exact h x (hcl ▸ hx)
        have hmem : x ∈ cleanedPrice s := hcl ▸ hx
        have h2 : (isDigitC x || x = '.') = true := by
          unfold cleanedPrice at hmem
          exact (List.mem_filter.mp hmem).2
        simp only [Bool.not_eq_true'] at h1
        simpa [h1] using h2
      rw [if_neg (by simp)]
      unfold pyFloatLit
      rw [splitDot_all_dots (c :: t) hdots]
      cases t with
      | nil => rfl
      | cons x t' =>
        simp only [List.length_cons, List.replicate_succ]

/-! ### Claim results -/

/-- C1, counterexample: the offer `{price "0.95", unit "1-L-Packung",
condition "2 Stück für 1.80"}` does not standardize to an effective
per-item price of 0.90 with comparable unit Liter (`"L"`, or the spelled
variant) and standardized unit price 0.90. -/
theorem c1_example_refuted :
    resultTriple (standardize_offer_price c1offer) ≠
      Except.ok (Val.vNum (mkQ 9 10), Val.vStr "L", Val.vNum (mkQ 9 10)) ∧
    resultTriple (standardize_offer_price c1offer) ≠
      Except.ok (Val.vNum (mkQ 9 10), Val.vStr "Liter", Val.vNum (mkQ 9 10)) :=
  ⟨by decide, by decide⟩

/-- C1, amended: on that offer the dot of `1.80` is stripped as a
thousands separator, so the bulk condition resolves to 180 / 2 = 90 as
the per-item price; the hyphens of `1-L-Packung` keep the quantity rules
from firing and `2 Stück` is extracted instead, giving comparable unit
`Stück` and standardized unit price 90 / 2 = 45. -/
theorem c1_example_actual :
    resultTriple (standardize_offer_price c1offer) =
      Except.ok (Val.vNum (mkQ 90 1), Val.vStr "Stück", Val.vNum (mkQ 45 1)) := by decide

/-- C2, counterexample: a record whose condition field is present but
null makes `standardize_offer_price` raise (an `AttributeError` from
`condition_str.lower()` at app.py line 98) instead of returning an
offer. -/
theorem c2_null_condition_raises :
    standardize_offer_price [("price", Val.vStr "1"), ("offer_condition", Val.vNone)] =
      Except.error () := by decide

/-- C2, amended: `standardize_offer_price` returns one normalized offer
for every record whose product, unit and condition fields are strings of
at most 100 characters or absent (absent keys read as the empty string);
the price field may hold anything, including null.  A present-but-null
unit or condition raises `AttributeError`, and a bulk-buy or pack count
of 309 or more digits raises `OverflowError` at the corresponding
division, so the no-fault contract needs exactly these bounds. -/
theorem c2_no_fault_on_text_records (offer : Dict) (pn cs us : String)
    (hpn : dictGet offer "product_name" (Val.vStr "") = Val.vStr pn)
    (hc : dictGet offer "offer_condition" (Val.vStr "") = Val.vStr cs)
    (hu : dictGet offer "unit" (Val.vStr "") = Val.vStr us)
    (hlp : pn.data.length ≤ 100) (hlc : cs.data.length ≤ 100)
    (hlu : us.data.length ≤ 100) :
    ∃ r, standardize_offer_price offer = Except.ok r :=
  standardizeTotal offer pn cs us hpn hc hu hlp hlc hlu

/-- C2 witness at a concrete record with absent product, unit and
condition fields. -/
theorem c2_no_fault_witness :
    (standardize_offer_price [("price", Val.vStr "0,99")]).isOk = true := by
  obtain ⟨r, hr⟩ := c2_no_fault_on_text_records [("price", Val.vStr "0,99")] "" "" ""
    rfl rfl rfl (by decide) (by decide) (by decide)
  rw [hr]
  rfl

/-- C3: the extractor on the spec's three example strings.  `500g` and
`6er Pack` give the documented results, and the multipack rule does fire
on `2 x 1.5L` before the single-quantity rule — but the captured quantity
`1.5` is pushed through `parse_price`, which strips the dot as a
thousands separator, so the function returns quantity 15.0 where its own
docstring (app.py line 35) promises 1.5. -/
theorem c3_extract_examples_eval :
    extract_quantity_and_unit_from_string "500g" = (some (mkQ 500 1), some "g", 1) ∧
    extract_quantity_and_unit_from_string "2 x 1.5L" = (some (mkQ 15 1), some "l", 2) ∧
    extract_quantity_and_unit_from_string "6er Pack" = (some ⟨1, 1⟩, some "Stück", 6) :=
  ⟨by decide, by decide, by decide⟩

/-- C4: `parse_price` treats `.` as a thousands separator and `,` as the
decimal separator, strips the rest, and yields nothing when no digits
remain. -/
theorem c4_parse_price_spec :
    parse_price (Val.vStr "1.234,56") = some (mkQ 123456 100) ∧
    parse_price (Val.vStr "") = none ∧
    parse_price (Val.vStr "ca. 2,99 €") = some (mkQ 299 100) ∧
    ∀ s : String, (cleanedPrice s).all (fun c => !isDigitC c) = true →
      parse_price (Val.vStr s) = none :=
  ⟨by decide, by decide, by decide, parse_price_none_of_no_digits⟩

/-- C4 witness: the no-digits clause at a concrete currency-only string. -/
theorem c4_parse_price_spec_witness : parse_price (Val.vStr "€") = none :=
  c4_parse_price_spec.2.2.2 "€" (by decide)

/-- C6, counterexample: with the condition field present and null, as the
claim's `condition: null` reads literally, standardization raises instead
of yielding any comparable unit or price at all. -/
theorem c6_example_refuted :
    standardize_offer_price (c6offer ++ [("offer_condition", Val.vNone)]) =
      Except.error () := by decide

/-- C6, amended: with the condition field absent the offer standardizes,
but the hyphens of `250-g-Packung` keep the gram rule from firing (the
regex needs the digits to touch the unit up to whitespace), the keyword
rule fires on `packung`, and the dot of `1.29` was stripped as a
thousands separator: comparable unit `Packung`, calculated price 129.0,
standardized unit price 129.0 — not Kilogram and 5.16. -/
theorem c6_example_actual :
    resultTriple (standardize_offer_price c6offer) =
      Except.ok (Val.vNum (mkQ 129 1), Val.vStr "Packung", Val.vNum (mkQ 129 1)) := by decide

/-- C7, counterexample: with an absent unit field the default
`comparable_unit` is the empty string — the key is set, but to an empty
value, refuting "never empty". -/
theorem c7_comparable_unit_empty :
    Except.map (fun r => dictGet r "comparable_unit" Val.vNone)
      (standardize_offer_price sampleOffer) = Except.ok (Val.vStr "") := by decide

/-- C7, amended: every returned offer carries the `comparable_unit` key —
it is never unset — though its default is the original unit field value
verbatim, which may be the empty string (or even null). -/
theorem c7_comparable_unit_always_set (d r : Dict)
    (h : standardize_offer_price d = Except.ok r) :
    (dictLookup r "comparable_unit").isSome = true :=
  standardize_hasCU d r h

/-- C7 witness at the concrete unparseable-price record. -/
theorem c7_comparable_unit_witness :
    (dictLookup sampleResult "comparable_unit").isSome = true :=
  c7_comparable_unit_always_set sampleOffer sampleResult (by decide)

set_option maxRecDepth 40000 in
/-- C8, counterexample: a single record whose product name carries a
310-digit pack count makes its standardization raise `OverflowError` at
the per-pack division (app.py line 123), so the comprehension of app.py
line 293 aborts and the batch returns no list at all. -/
theorem c8_overflow_aborts_batch : normalizeBatch [overflowOffer] = Except.error () := by
  decide

/-- C8, amended: whenever every record's standardization returns
normally, batch normalization returns one list with, in order, one
standardized offer per input record, each produced by one independent
`standardize_offer_price` call (`List.Forall₂` carries equal length,
order, and the pointwise relation); a record whose standardization
raises aborts the whole batch with that exception instead. -/
theorem c8_normalize_batch (ds : List Dict)
    (h : ∀ d ∈ ds, (standardize_offer_price d).isOk = true) :
    ∃ out, normalizeBatch ds = Except.ok out ∧
      List.Forall₂ (fun dd rr => standardize_offer_price dd = Except.ok rr) ds out := by
  induction ds with
  | nil => exact ⟨[], rfl, List.Forall₂.nil⟩
  | cons d t ih =>
    have hd := h d (List.mem_cons_self d t)
    rcases hs : standardize_offer_price d with e | r
    · rw [hs] at hd
      exact absurd hd (by simp [Except.isOk, Except.toBool])
    · obtain ⟨out, ho, hf⟩ := ih (fun x hx => h x (List.mem_cons_of_mem _ hx))
      exact ⟨r :: out, by simp [normalizeBatch, hs, ho], List.Forall₂.cons hs hf⟩

/-- C8 witness on a one-record batch. -/
theorem c8_normalize_batch_witness : (normalizeBatch [sampleOffer]).isOk = true := by
  obtain ⟨out, h1, _⟩ := c8_normalize_batch [sampleOffer] (by
    intro d hd
    rw [List.mem_singleton] at hd
    subst hd
    decide)
  rw [h1]
  rfl

/-- C9: the batch step passes each standardization a fresh copy, so the
mutation of `standardize_offer_price` lands only in freshly allocated
cells: every pre-existing store cell — in particular every original input
record — is unchanged after the batch. -/
theorem c9_batch_frame (store : List Dict) (rs : List Nat) (store' : List Dict)
    (outs : List Nat) (h : batchAux store rs = Except.ok (store', outs)) :
    ∀ i, i < store.length → store'[i]? = store[i]? :=
  batchAux_preserves rs store store' outs h

/-- C9 witness: a one-record batch leaves the original cell untouched. -/
theorem c9_batch_frame_witness :
    ([sampleOffer, sampleResult] : List Dict)[0]? = ([sampleOffer] : List Dict)[0]? :=
  c9_batch_frame [sampleOffer] [0] [sampleOffer, sampleResult] [1] (by decide) 0 (by decide)

/-- C10: whenever none of the three numeric patterns matches the folded
text but the two-letter substring `st` occurs anywhere — inside `obst` or
`kiste` as much as in a unit word — the piece fallback of app.py line 67
fires and the extractor returns `(1, "Stück", 1)`. -/
theorem c10_bare_st_fallback (s : String)
    (hA : searchWith tryMulti (pyLower s).data = none)
    (hB : searchWith trySingle (pyLower s).data = none)
    (hC : searchWith tryPackCount (pyLower s).data = none)
    (hst : containsSub (pyLower s).data "st".data = true) :
    extract_quantity_and_unit_from_string s = (some ⟨1, 1⟩, some "Stück", 1) := by
  simp only [extract_quantity_and_unit_from_string, hA, hB, hC, hst, Bool.or_true]
  rfl

/-- C10 witness: `obst` matches no numeric rule yet contains `st`. -/
theorem c10_bare_st_fallback_witness :
    extract_quantity_and_unit_from_string "obst" = (some ⟨1, 1⟩, some "Stück", 1) :=
  c10_bare_st_fallback "obst" (by decide) (by decide) (by decide) (by decide)

end GroceryNorm
